import Mathlib

/-!
Verification of the response-capture and session-state engine of the
`qwen_bot` repository (`src/main.py`) through a shallow embedding.

The embedding models:
* the JSON values handled by the extractor and the normalizer
  (`Json`, with `dumps` modelling `json.dumps(..., ensure_ascii=False)`);
* the conversation normalizer `QWenChatLogger.extract_conversation_data`;
* the session store `QWenChatLogger.save_to_csv` /
  `QWenChatLogger.get_existing_message_ids` over an explicit durable
  file state;
* the network-log message extractor `QWenChatBot._get_response_data`
  with explicit Python exception classes, since the nested
  `try/except` blocks treat exception classes differently;
* the completion detector `QWenChatBot._wait_for_response` as a fuel
  indexed polling loop over an injected busy-indicator lookup;
* the whitespace normalizer `QWenChatBot.clean_query`;
* the response selection of `QWenChatBot.query`.
-/

/-- JSON values as produced by Python `json.loads`.  Numbers are modelled
as integers (the payloads of interest carry integer timestamps and ids);
object fields are kept in their textual order. -/
inductive Json where
  | null : Json
  | bool (b : Bool) : Json
  | num (n : Int) : Json
  | str (s : String) : Json
  | arr (elems : List Json) : Json
  | obj (fields : List (String × Json)) : Json
deriving Repr

/-- Escaping of one character inside a JSON string literal, modelling the
escapes `json.dumps` emits for the characters that occur in this
development (backslash, quote and the common control characters). -/
def escapeChar (c : Char) : String :=
  if c = '\\' then "\\\\"
  else if c = '"' then "\\\""
  else if c = '\n' then "\\n"
  else if c = '\t' then "\\t"
  else if c = '\r' then "\\r"
  else String.singleton c

/-- Escaping of a JSON string literal body. -/
def escapeStr (s : String) : String :=
  String.join (s.data.map escapeChar)

mutual
/-- Model of Python `json.dumps(v, ensure_ascii=False)` with the default
separators `", "` and `": "`. -/
def dumps : Json → String
  | .null => "null"
  | .bool true => "true"
  | .bool false => "false"
  | .num n => toString n
  | .str s => "\"" ++ escapeStr s ++ "\""
  | .arr xs => "[" ++ dumpsArr xs ++ "]"
  | .obj kvs => "\x7b" ++ dumpsObj kvs ++ "\x7d"

/-- Comma separated rendering of array elements. -/
def dumpsArr : List Json → String
  | [] => ""
  | [x] => dumps x
  | x :: y :: rest => dumps x ++ ", " ++ dumpsArr (y :: rest)

/-- Comma separated rendering of object fields. -/
def dumpsObj : List (String × Json) → String
  | [] => ""
  | [kv] => "\"" ++ escapeStr kv.1 ++ "\": " ++ dumps kv.2
  | kv :: kv2 :: rest =>
      "\"" ++ escapeStr kv.1 ++ "\": " ++ dumps kv.2 ++ ", " ++ dumpsObj (kv2 :: rest)
end

example : dumps (.obj []) = "\x7b\x7d" := rfl
example : dumps (.obj [("a", .num 1), ("b", .arr [.str "x"])]) = "\x7b\"a\": 1, \"b\": [\"x\"]\x7d" := rfl

/-! ## Conversation normalizer: `QWenChatLogger.extract_conversation_data` -/

/-- One entry of an assistant message's `content_list`
(`main.py` lines 72–76 access `phase`, `status`, `content`). -/
structure ContentItem where
  phase : String
  status : String
  content : String
deriving DecidableEq, Repr

/-- A raw message record as read out of the intercepted request bodies.
Fields read with `msg['k']` (required by the data model) are total;
fields read with `msg.get('k', default)` are `Option`s and the default is
applied at the use site, mirroring `main.py` lines 70–99. -/
structure Msg where
  timestamp : Int
  content : String
  role : String
  content_list : Option (List ContentItem)
  parentId : Option String
  model : Option String
  modelName : Option String
  chat_type : Option String
  webSearchInfo : Option (List Json)
  suggest : Option (List Json)
  models : Option (List Json)
  feature_config : Option Json
  user_action : Option String
  done : Option Bool
deriving Repr

/-- A normalized CSV row with the exact eleven columns written by
`extract_conversation_data` (`main.py` lines 83–100). -/
structure Row where
  id : String
  parent_id : Option String
  role : String
  content : String
  timestamp : String
  model : String
  model_name : String
  chat_type : String
  sources : String
  suggestions : String
  extra_data : String
deriving DecidableEq, Repr

/-- The loop guard of `main.py` line 74:
`content_item['phase'] == 'answer' and content_item['status'] == 'finished'`. -/
def isFinishedAnswer (it : ContentItem) : Bool :=
  it.phase == "answer" && it.status == "finished"

/-- `{f"source_{i}": src for i, src in enumerate(sources)} if sources else {}`
(`main.py` line 79). -/
def sourcesDict (sources : List Json) : List (String × Json) :=
  if sources.isEmpty then []
  else sources.enum.map (fun p => ("source_" ++ toString p.1, p.2))

/-- `{"suggestions": suggestions} if suggestions else {}` (`main.py` line 81). -/
def suggestionsDict (suggestions : List Json) : List (String × Json) :=
  if suggestions.isEmpty then []
  else [("suggestions", Json.arr suggestions)]

/-- The object serialized into the `extra_data` column (`main.py` lines 94–99). -/
def extraDataJson (msg : Msg) : Json :=
  Json.obj [("models", Json.arr (msg.models.getD [])),
            ("feature_config", msg.feature_config.getD (Json.obj [])),
            ("user_action", Json.str (msg.user_action.getD "")),
            ("done", Json.bool (msg.done.getD false))]

/-- Normalization of one message (the loop body of
`extract_conversation_data`, `main.py` lines 68–101).  `fmtTime` stands
for `datetime.fromtimestamp(·).strftime('%Y-%m-%d %H:%M:%S')`, an
external locale/timezone dependent facility injected as a function. -/
def extract_row (fmtTime : Int → String) (msg_id : String) (msg : Msg) : Row :=
  let content :=
    if msg.role = "assistant" then
      match msg.content_list with
      | some items =>
          match items.find? isFinishedAnswer with
          | some it => it.content
          | none => msg.content
      | none => msg.content
    else msg.content
  let sources := msg.webSearchInfo.getD []
  let suggestions := msg.suggest.getD []
  ⟨msg_id, msg.parentId, msg.role, content, fmtTime msg.timestamp,
   msg.model.getD "", msg.modelName.getD "", msg.chat_type.getD "",
   if msg.role = "assistant" then dumps (Json.obj (sourcesDict sources)) else "",
   if msg.role = "assistant" then dumps (Json.obj (suggestionsDict suggestions)) else "",
   dumps (extraDataJson msg)⟩

/-- `extract_conversation_data` over a whole message mapping, modelled as
an association list in the dict's insertion (iteration) order.  The
`if not msg_data` early return of `main.py` line 65 coincides with
mapping over the empty list; for records satisfying the `Msg` data model
the per-message `except` of line 102 is unreachable. -/
def extract_conversation_data (fmtTime : Int → String)
    (msg_data : List (String × Msg)) : List Row :=
  msg_data.map (fun p => extract_row fmtTime p.1 p.2)

/-! ## Session store: `get_existing_message_ids` and `save_to_csv` -/

/-- One line of a session's durable CSV file: the header line,
a data line holding one row, or a line the `csv` layer yields without a
usable `id` entry (a blank or otherwise malformed line). -/
inductive CsvLine where
  | header : CsvLine
  | data (r : Row) : CsvLine
  | malformed : CsvLine
deriving DecidableEq, Repr

/-- The durable file for one `(session_id, date)` pair: `none` when
`os.path.isfile` is false, otherwise its list of lines. -/
abbrev FileState := Option (List CsvLine)

/-- The value a line contributes to the `id` column when it is iterated
by `csv.DictReader`: a data line contributes its row id, a repeated
literal header line is read as a data line whose `id` column holds the
string `"id"`, and a malformed line contributes nothing (the
`if 'id' in row` guard of `main.py` line 54 skips it). -/
def lineId : CsvLine → Option String
  | .data r => some r.id
  | .header => some "id"
  | .malformed => none

/-- `get_existing_message_ids` (`main.py` lines 45–58): a missing file
yields the empty set; otherwise `csv.DictReader` consumes the first line
as the field names and every later line contributes its `id` value when
it has one.  The Python `set` is modelled by a list used only through
membership. -/
def get_existing_message_ids : FileState → List String
  | none => []
  | some [] => []
  | some (_ :: rest) => rest.filterMap lineId

/-- `save_to_csv` (`main.py` lines 110–141) as a transformer of the
durable file state: an empty batch or a batch whose ids are all already
recorded performs no file I/O; otherwise the file is opened in append
mode (creating it when absent), the header is written only when the file
did not previously exist, and the surviving rows are appended in their
given order. -/
def save_to_csv (file : FileState) (conversations : List Row) : FileState :=
  if conversations.isEmpty then file
  else
    let existing_ids := get_existing_message_ids file
    let new_conversations :=
      conversations.filter (fun conv => !decide (conv.id ∈ existing_ids))
    if new_conversations.isEmpty then file
    else
      some ((file.getD []) ++
        (if file.isSome then [] else [CsvLine.header]) ++
        new_conversations.map CsvLine.data)

/-- File states reachable through `save_to_csv` alone: either the file
does not exist, or it starts with the header line and the header never
recurs. -/
def WFFile : FileState → Prop
  | none => True
  | some lines => ∃ rest, lines = CsvLine.header :: rest ∧ CsvLine.header ∉ rest

/-! ## Completion detector: `QWenChatBot._wait_for_response` -/

/-- Outcome of one busy-indicator lookup
(`driver.find_element` on the stop icon, `main.py` lines 395–397):
the element is found, it is not found, or the lookup raises
(stale handle, driver error, …). -/
inductive LookupResult where
  | found : LookupResult
  | notFound : LookupResult
  | raised : LookupResult
deriving DecidableEq, Repr

/-- Whether a lookup outcome keeps the loop in its busy branch.  The bare
`except:` of `main.py` line 400 breaks the loop on any failure, so every
failure is treated identically to absence. -/
def stillPresent : LookupResult → Bool
  | .found => true
  | .notFound => false
  | .raised => false

/-- The polling loop of `_wait_for_response` (`main.py` lines 393–402)
over an injected sequence of lookup outcomes, with explicit fuel since
the Python loop is unbounded by design.  `wait_for_response checks fuel i`
returns `some n` when, starting from check index `i`, the loop breaks at
check index `n` (having slept through `n - i` busy cycles), and `none`
when the fuel is exhausted with the loop still polling. -/
def wait_for_response (checks : Nat → LookupResult) : Nat → Nat → Option Nat
  | 0, _ => none
  | fuel + 1, i =>
      if stillPresent (checks i) then wait_for_response checks fuel (i + 1)
      else some i

/-! ## Query cleaning: `QWenChatBot.clean_query` -/

/-- The character class of Python's `\s` (ASCII range), also the class
`str.strip()` removes. -/
def pyIsSpace (c : Char) : Bool :=
  c = ' ' || c = '\t' || c = '\n' || c = '\r' || c = '\x0b' || c = '\x0c'

/-- `dropWhile` never lengthens a list (termination helper). -/
theorem dropWhile_length_le {α : Type} (p : α → Bool) (l : List α) :
    (l.dropWhile p).length ≤ l.length := by
  induction l with
  | nil => simp [List.dropWhile]
  | cons c cs ih =>
      rw [List.dropWhile_cons]
      split
      · exact le_trans ih (by simp)
      · simp

/-- `re.sub(p+, ' ', ·)` over a character list: every maximal run of
characters satisfying `p` is replaced by a single space. -/
def subRuns (p : Char → Bool) : List Char → List Char
  | [] => []
  | c :: cs =>
      if p c then ' ' :: subRuns p (cs.dropWhile p)
      else c :: subRuns p cs
termination_by l => l.length
decreasing_by
  · simp only [List.length_cons]
    have := dropWhile_length_le p cs
    omega
  · simp

/-- Removal of trailing characters satisfying `p`. -/
def dropTrailing (p : Char → Bool) (l : List Char) : List Char :=
  (l.reverse.dropWhile p).reverse

/-- Python `str.strip()` over a character list. -/
def pyStripL (l : List Char) : List Char :=
  dropTrailing pyIsSpace (l.dropWhile pyIsSpace)

/-- `clean_query` (`main.py` lines 285–289):
`re.sub(r'\n+', ' ', query)`, then `re.sub(r'\s+', ' ', ·)`, then
`.strip()`. -/
def clean_query (query : String) : String :=
  ⟨pyStripL (subRuns pyIsSpace (subRuns (fun c => c = '\n') query.data))⟩

/-- The maximal-word decomposition of a character list: the list of
maximal runs of non-whitespace characters, in order.  Two strings decompose
to the same word list exactly when they differ only in whitespace runs. -/
def wordsOf : List Char → List (List Char)
  | [] => []
  | c :: cs =>
      if pyIsSpace c then wordsOf (cs.dropWhile pyIsSpace)
      else (c :: cs.takeWhile (fun d => !pyIsSpace d)) ::
             wordsOf (cs.dropWhile (fun d => !pyIsSpace d))
termination_by l => l.length
decreasing_by
  · simp only [List.length_cons]
    have := dropWhile_length_le pyIsSpace cs
    omega
  · simp only [List.length_cons]
    have := dropWhile_length_le (fun d => !pyIsSpace d) cs
    omega

/-! ## Response selection of `QWenChatBot.query` -/

/-- The response chosen by `query` (`main.py` lines 337–340):
`next((conv['content'] for conv in conversations if conv['role'] == 'assistant'),
"No assistant response found")` — the first generator element, i.e. the
content of the **first** row whose role is `assistant`. -/
def assistantResponse (conversations : List Row) : String :=
  match conversations.find? (fun conv => conv.role == "assistant") with
  | some conv => conv.content
  | none => "No assistant response found"

/-! ## Message extractor: `QWenChatBot._get_response_data`

The nested `try/except` blocks of `main.py` lines 421–450 treat
exception classes differently: the per-entry handler (line 442) catches
`KeyError`, `json.JSONDecodeError` and `TypeError` and continues with
the next entry (the inner handler of line 439 catches `JSONDecodeError`
with the same effect), while any other exception — notably the
`AttributeError` raised by calling `.get` on a parsed value that is not
a dict, or the `ValueError` raised by `dict.update` on an ill-shaped
sequence — escapes to the outer handler (line 448), which abandons the
scan and returns the empty mapping.  The embedding therefore tracks the
exception class. -/

/-- The Python exception classes the extractor can raise internally. -/
inductive PyErr where
  | keyErr : PyErr
  | typeErr : PyErr
  | valueErr : PyErr
  | attrErr : PyErr
  | jsonDecodeErr : PyErr
deriving DecidableEq, Repr

/-- A hashable Python value usable as a dict key (the keys that can reach
`msg_data`: strings from parsed objects, plus scalars through the
`dict.update(sequence-of-pairs)` path). -/
inductive PyKey where
  | str (s : String) : PyKey
  | num (n : Int) : PyKey
  | bool (b : Bool) : PyKey
  | noneKey : PyKey
deriving DecidableEq, Repr

/-- The accumulator `msg_data`: a Python dict in insertion order. -/
abbrev PyDict := List (PyKey × Json)

/-- Python dict read (first and only binding of a key, since inserts
keep keys unique). -/
def dictGet (m : PyDict) (k : PyKey) : Option Json :=
  (m.find? (fun kv => decide (kv.1 = k))).map (fun kv => kv.2)

/-- `d[k] = v` on a Python dict: overwrite in place when the key exists,
append otherwise. -/
def dictInsert (m : PyDict) (k : PyKey) (v : Json) : PyDict :=
  if m.any (fun kv => decide (kv.1 = k)) then
    m.map (fun kv => if kv.1 = k then (k, v) else kv)
  else m ++ [(k, v)]

/-- `d.update(pairs)`: insert the pairs left to right. -/
def dictUpdate (m : PyDict) (kvs : List (PyKey × Json)) : PyDict :=
  kvs.foldl (fun acc kv => dictInsert acc kv.1 kv.2) m

/-- Field lookup in a parsed JSON object.  `json.loads` keeps the last
binding when the input text repeats a key, so the last binding wins. -/
def objGet (kvs : List (String × Json)) (k : String) : Option Json :=
  (kvs.reverse.find? (fun kv => decide (kv.1 = k))).map (fun kv => kv.2)

/-- Python `value.get(k, d)`: only dicts have `.get`; anything else
raises `AttributeError`. -/
def pyGetD (j : Json) (k : String) (d : Json) : Except PyErr Json :=
  match j with
  | .obj kvs => .ok ((objGet kvs k).getD d)
  | _ => .error .attrErr

/-- Python `==` between a parsed JSON value and a string literal: only a
string compares equal. -/
def isStrEq (j : Json) (s : String) : Bool :=
  match j with
  | .str t => t == s
  | _ => false

/-- Substring test, Python `needle in hay` for strings. -/
def strContains (hay needle : String) : Bool :=
  hay.data.tails.any (fun t => needle.data.isPrefixOf t)

/-- Python `needle in j` for a string needle: key membership in a dict,
element equality in a list, substring in a string, `TypeError`
otherwise. -/
def pyIn (needle : String) (j : Json) : Except PyErr Bool :=
  match j with
  | .obj kvs => .ok (kvs.any (fun kv => decide (kv.1 = needle)))
  | .arr xs => .ok (xs.any (fun x => isStrEq x needle))
  | .str s => .ok (strContains s needle)
  | _ => .error .typeErr

/-- Python `j[k]` for a string subscript: dict lookup (`KeyError` when
absent); a string subscript on a list or string raises `TypeError`, as
does subscripting a scalar. -/
def pyIndex (j : Json) (k : String) : Except PyErr Json :=
  match j with
  | .obj kvs =>
      match objGet kvs k with
      | some v => .ok v
      | none => .error .keyErr
  | _ => .error .typeErr

/-- Python truthiness of a parsed JSON value (`if post_data:`). -/
def pyTruthy (j : Json) : Bool :=
  match j with
  | .null => false
  | .bool b => b
  | .num n => decide (n ≠ 0)
  | .str s => decide (s ≠ "")
  | .arr xs => !xs.isEmpty
  | .obj kvs => !kvs.isEmpty

/-- The hashable-key view of a JSON value; lists and dicts are
unhashable. -/
def hashableKey : Json → Option PyKey
  | .str s => some (.str s)
  | .num n => some (.num n)
  | .bool b => some (.bool b)
  | .null => some .noneKey
  | .arr _ => none
  | .obj _ => none

/-- One element of a `dict.update(sequence)` argument: it must iterate to
a key/value pair.  A two-element list yields its elements (`TypeError`
when the key is unhashable, `ValueError` at other lengths), a
two-character string yields its characters, a two-key dict yields its
keys, and a scalar is not iterable (`TypeError`). -/
def elemPair : Json → Except PyErr (PyKey × Json)
  | .arr [k, v] =>
      match hashableKey k with
      | some pk => .ok (pk, v)
      | none => .error .typeErr
  | .arr _ => .error .valueErr
  | .str s =>
      if s.length = 2 then .ok (.str (s.take 1), .str (s.drop 1))
      else .error .valueErr
  | .obj [kv1, kv2] => .ok (.str kv1.1, .str kv2.1)
  | .obj _ => .error .valueErr
  | _ => .error .typeErr

/-- The pair list `dict.update` iterates over for a given argument:
a dict contributes its items, a list its element pairs, the empty string
nothing; a non-empty string's characters are not pairs (`ValueError`) and
a scalar is not iterable (`TypeError`). -/
def updateArgPairs : Json → Except PyErr (List (PyKey × Json))
  | .obj kvs => .ok (kvs.map (fun kv => (PyKey.str kv.1, kv.2)))
  | .arr xs => xs.mapM elemPair
  | .str "" => .ok []
  | .str _ => .error .valueErr
  | _ => .error .typeErr

/-- Processing of one performance-log entry (the body of the `for` loop,
`main.py` lines 422–440).  The entry is `entry['message']` when present
(`none` models an entry dict without that key, which raises `KeyError`);
`loads` is the injected `json.loads`, returning `none` exactly on
malformed input (`JSONDecodeError`). -/
def processEntry (loads : String → Option Json) (entry : Option String)
    (msg_data : PyDict) : Except PyErr PyDict :=
  match entry with
  | none => .error .keyErr
  | some es =>
  match loads es with
  | none => .error .jsonDecodeErr
  | some log =>
  match pyGetD log "message" (.obj []) with
  | .error err => .error err
  | .ok message =>
  match pyGetD message "method" .null with
  | .error err => .error err
  | .ok mthd =>
  if isStrEq mthd "Network.requestWillBeSent" then
    match pyGetD message "params" (.obj []) with
    | .error err => .error err
    | .ok params =>
    match pyGetD params "request" (.obj []) with
    | .error err => .error err
    | .ok request =>
    match pyGetD request "method" .null with
    | .error err => .error err
    | .ok rmethod =>
    if isStrEq rmethod "POST" then
      match pyGetD request "url" (.str "") with
      | .error err => .error err
      | .ok url =>
      match pyIn "chat" url with
      | .error err => .error err
      | .ok hasChat =>
      if hasChat then
        match pyGetD request "postData" .null with
        | .error err => .error err
        | .ok post_data =>
        if pyTruthy post_data then
          match (match post_data with
                 | .str s =>
                     (match loads s with
                      | none => Except.error PyErr.jsonDecodeErr
                      | some j => Except.ok j)
                 | _ => Except.error PyErr.typeErr) with
          | .error err => .error err
          | .ok pj =>
          match pyGetD pj "chat" (.obj []) with
          | .error err => .error err
          | .ok chat =>
          match pyGetD chat "history" (.obj []) with
          | .error err => .error err
          | .ok history =>
          match pyIn "messages" history with
          | .error err => .error err
          | .ok hasMsgs =>
          if hasMsgs then
            match pyIndex history "messages" with
            | .error err => .error err
            | .ok msgs =>
            match updateArgPairs msgs with
            | .error err => .error err
            | .ok pairs => .ok (dictUpdate msg_data pairs)
          else .ok msg_data
        else .ok msg_data
      else .ok msg_data
    else .ok msg_data
  else .ok msg_data

/-- The exception classes the per-entry handlers catch and turn into
`continue` (`except (KeyError, json.JSONDecodeError, TypeError)` at line
442, `except json.JSONDecodeError: continue` at line 439). -/
def skippable : PyErr → Bool
  | .keyErr => true
  | .jsonDecodeErr => true
  | .typeErr => true
  | .attrErr => false
  | .valueErr => false

/-- The scan over all buffered log entries: a skippable failure moves to
the next entry with the accumulator unchanged; any other exception
aborts the scan. -/
def extractGo (loads : String → Option Json) :
    List (Option String) → PyDict → Except PyErr PyDict
  | [], acc => .ok acc
  | e :: rest, acc =>
      match processEntry loads e acc with
      | .ok acc' => extractGo loads rest acc'
      | .error err =>
          if skippable err then extractGo loads rest acc
          else .error err

/-- `_get_response_data` (`main.py` lines 409–450): run the scan from the
empty mapping; the outer `except Exception` handler logs and returns the
empty mapping when a non-skippable exception escapes. -/
def get_response_data (loads : String → Option Json)
    (logs : List (Option String)) : PyDict :=
  match extractGo loads logs [] with
  | .ok m => m
  | .error _ => []

/-- The inner POST body a qualifying entry carries: an object with the
`chat.history.messages` path holding the message mapping `M`. -/
def mkInner (M : List (String × Json)) : Json :=
  Json.obj [("chat", Json.obj [("history", Json.obj [("messages", Json.obj M)])])]

/-- The outer devtools event for an outbound POST request to `url` whose
body text is `p`. -/
def mkOuter (url p : String) : Json :=
  Json.obj [("message",
    Json.obj [("method", Json.str "Network.requestWillBeSent"),
              ("params", Json.obj [("request",
                 Json.obj [("method", Json.str "POST"),
                           ("url", Json.str url),
                           ("postData", Json.str p)])])])]

/-! ## Concrete inputs and helper definitions for the claim theorems -/

/-- Concrete assistant message used to witness C3: the top-level content
is `"provisional"`, the first finished answer entry carries `"X"`. -/
def c3msg : Msg :=
  ⟨5, "provisional", "assistant",
   some [⟨"think", "finished", "thoughts"⟩, ⟨"answer", "typing", "draft"⟩,
         ⟨"answer", "finished", "X"⟩, ⟨"answer", "finished", "Y"⟩],
   none, none, none, none, none, none, none, none, none, none⟩

/-- Concrete assistant message with an empty `webSearchInfo` list,
refuting C4 as stated. -/
def c4msg : Msg :=
  ⟨5, "hi", "assistant", none, none, none, none, none, some [], none,
   none, none, none, none⟩

/-- Helper to build rows that differ only in id, role and content. -/
def mkRow (rid role content : String) : Row :=
  ⟨rid, none, role, content, "", "", "", "", "", "", ""⟩

/-- Concrete row used by the C7 witness. -/
def c7row : Row := mkRow "x7" "user" "hello"

/-- Concrete indicator trace for the C8 witness: present on checks 0 and
1, absent from check 2 on. -/
def c8checks : Nat → LookupResult :=
  fun i => if i < 2 then LookupResult.found else LookupResult.notFound

/-- The lines of a durable file state (empty when the file is absent). -/
def linesOf (file : FileState) : List CsvLine := file.getD []

/-- Concrete row for the C1 witness. -/
def c1row : Row := mkRow "r1" "user" "hi"

/-- The last binding of a key in a pair list (what a left-to-right
sequence of dict inserts leaves behind for that key). -/
def lastVal (kvs : List (PyKey × Json)) (k : PyKey) : Option Json :=
  (kvs.reverse.find? (fun kv => decide (kv.1 = k))).map (fun kv => kv.2)

/-- Concrete `json.loads` oracle for the C2 witness: two qualifying
entries re-sending the history for message `"m"`, first with content
`"old"`, then with content `"new"`. -/
def c2loads : String → Option Json := fun s =>
  if s = "e1" then some (mkOuter "https://chat.qwen.ai/api/chat" "p1")
  else if s = "p1" then some (mkInner [("m", Json.str "old")])
  else if s = "e2" then some (mkOuter "https://chat.qwen.ai/api/chat" "p2")
  else if s = "p2" then some (mkInner [("m", Json.str "new")])
  else none

/-- Concrete `json.loads` oracle for C6: five valid qualifying entries
(`v1`–`v5`, one message each) and one corrupted entry `bad` whose POST
body `nb` is valid JSON but not an object (wrong type). -/
def c6loads : String → Option Json := fun s =>
  if s = "v1" then some (mkOuter "chat" "q1")
  else if s = "q1" then some (mkInner [("m1", Json.str "c1")])
  else if s = "v2" then some (mkOuter "chat" "q2")
  else if s = "q2" then some (mkInner [("m2", Json.str "c2")])
  else if s = "v3" then some (mkOuter "chat" "q3")
  else if s = "q3" then some (mkInner [("m3", Json.str "c3")])
  else if s = "v4" then some (mkOuter "chat" "q4")
  else if s = "q4" then some (mkInner [("m4", Json.str "c4")])
  else if s = "v5" then some (mkOuter "chat" "q5")
  else if s = "q5" then some (mkInner [("m5", Json.str "c5")])
  else if s = "bad" then some (mkOuter "chat" "nb")
  else if s = "nb" then some (Json.arr [Json.num 1])
  else none

/-- Joining a word list with single spaces — the canonical
whitespace-normal form. -/
def joinWords : List (List Char) → List Char
  | [] => []
  | [w] => w
  | w :: w2 :: rest => w ++ ' ' :: joinWords (w2 :: rest)

/-! ## Claim theorems -/

/-- C3: for an assistant-role record with a `content_list`, the
normalized content is the content of the first entry whose phase is
`"answer"` and status is `"finished"` — regardless of the top-level
content field — and the top-level content is used when no such entry
exists. -/
theorem c3_content_phase_override (fmtTime : Int → String) (msg_id : String)
    (msg : Msg) (items : List ContentItem)
    (hrole : msg.role = "assistant") (hlist : msg.content_list = some items) :
    (∀ it : ContentItem, items.find? isFinishedAnswer = some it →
        (extract_row fmtTime msg_id msg).content = it.content)
    ∧ (items.find? isFinishedAnswer = none →
        (extract_row fmtTime msg_id msg).content = msg.content) := by
  constructor
  · intro it hfind
    simp [extract_row, hrole, hlist, hfind]
  · intro hfind
    simp [extract_row, hrole, hlist, hfind]

/-- Witness for C3 at a concrete record: the first finished answer wins. -/
theorem c3_content_phase_override_witness :
    (extract_row (fun t => toString t) "m1" c3msg).content = "X" :=
  (c3_content_phase_override (fun t => toString t) "m1" c3msg
      [⟨"think", "finished", "thoughts"⟩, ⟨"answer", "typing", "draft"⟩,
       ⟨"answer", "finished", "X"⟩, ⟨"answer", "finished", "Y"⟩] rfl rfl).1
    ⟨"answer", "finished", "X"⟩ (by decide)

/-- C4 counterexample: for an assistant record with an empty sources
list the normalized `sources` field is the serialized empty structure
`"{}"`, not the empty string as the claim states. -/
theorem c4_counterexample :
    (extract_row (fun _ => "") "m1" c4msg).sources = "\x7b\x7d"
    ∧ (extract_row (fun _ => "") "m1" c4msg).sources ≠ "" := by
  constructor
  · rfl
  · intro h
    exact absurd h (by decide)

/-- C4 amended: for every assistant record whose sources list is empty
(or absent), the normalized `sources` field is the serialized empty
structure `"{}"`; the empty string appears exactly in the
non-assistant case. -/
theorem c4_empty_sources_serialized (fmtTime : Int → String) (msg_id : String)
    (msg : Msg) (hrole : msg.role = "assistant")
    (hsrc : msg.webSearchInfo.getD [] = []) :
    (extract_row fmtTime msg_id msg).sources = "\x7b\x7d" := by
  simp [extract_row, hrole, hsrc, sourcesDict]
  rfl

/-- Witness for the amended C4 at a concrete record. -/
theorem c4_empty_sources_serialized_witness :
    (extract_row (fun _ => "") "m2" c4msg).sources = "\x7b\x7d" :=
  c4_empty_sources_serialized (fun _ => "") "m2" c4msg rfl rfl

/-- C5: the code selects the FIRST assistant row, not the most recent
one.  On a continued session the extracted rows replay the whole
history, so with two assistant rows the returned response is the first
turn's answer — contradicting both the claim and the code's own comment
`# Return the latest assistant response`; the sentinel branch does hold. -/
theorem c5_first_not_latest :
    assistantResponse
        [mkRow "u1" "user" "q1", mkRow "a1" "assistant" "first answer",
         mkRow "u2" "user" "q2", mkRow "a2" "assistant" "second answer"]
      = "first answer"
    ∧ "first answer" ≠ "second answer"
    ∧ assistantResponse [] = "No assistant response found" := by
  refine ⟨rfl, by decide, rfl⟩

/-- C7: reading the dedup index returns the empty set when the durable
file does not exist; a malformed line is skipped without aborting, and
every well-formed data line's id is still returned. -/
theorem c7_existing_ids_tolerant :
    get_existing_message_ids none = []
    ∧ (∀ ls1 ls2 : List CsvLine,
        get_existing_message_ids
            (some (CsvLine.header :: (ls1 ++ CsvLine.malformed :: ls2)))
          = get_existing_message_ids (some (CsvLine.header :: (ls1 ++ ls2))))
    ∧ (∀ (ls : List CsvLine) (r : Row), CsvLine.data r ∈ ls →
        r.id ∈ get_existing_message_ids (some (CsvLine.header :: ls))) := by
  refine ⟨rfl, ?_, ?_⟩
  · intro ls1 ls2
    simp [get_existing_message_ids, List.filterMap_append, List.filterMap_cons, lineId]
  · intro ls r hmem
    simp only [get_existing_message_ids, List.mem_filterMap]
    exact ⟨CsvLine.data r, hmem, rfl⟩

/-- Witness for C7: in a file with a malformed line the well-formed
row's id is still recovered. -/
theorem c7_existing_ids_tolerant_witness :
    c7row.id ∈ get_existing_message_ids
        (some (CsvLine.header :: [CsvLine.malformed, CsvLine.data c7row])) :=
  c7_existing_ids_tolerant.2.2 [CsvLine.malformed, CsvLine.data c7row] c7row
    (by decide)

/-- Stepping helper for C8: the loop breaks at index `i + N` when the
indicator is reported present on the `N` checks starting at `i` and the
check at `i + N` reports absence or failure. -/
theorem wait_for_response_run (checks : Nat → LookupResult) :
    ∀ (N fuel i : Nat), (∀ j, j < N → stillPresent (checks (i + j)) = true) →
      stillPresent (checks (i + N)) = false → N < fuel →
      wait_for_response checks fuel i = some (i + N) := by
  intro N
  induction N with
  | zero =>
      intro fuel i _ habs hfuel
      rw [Nat.add_zero] at habs
      match fuel, hfuel with
      | fuel + 1, _ =>
        rw [Nat.add_zero, wait_for_response, habs]
        simp
  | succ N ih =>
      intro fuel i hpres habs hfuel
      match fuel, hfuel with
      | fuel + 1, hfuel =>
        have h0 : stillPresent (checks i) = true := by
          have := hpres 0 (Nat.succ_pos N)
          simpa using this
        have hrec := ih fuel (i + 1)
          (fun j hj => by
            have := hpres (j + 1) (by omega)
            have harith : i + (j + 1) = i + 1 + j := by omega
            rwa [harith] at this)
          (by
            have harith : i + (N + 1) = i + 1 + N := by omega
            rwa [harith] at habs)
          (by omega)
        have harith : i + 1 + N = i + (N + 1) := by omega
        rw [wait_for_response, h0, if_pos rfl, hrec, harith]

/-- Exit-soundness helper for C8: whenever the loop breaks at index `n`,
the check at `n` reported absence or failure. -/
theorem wait_for_response_exit (checks : Nat → LookupResult) :
    ∀ (fuel i n : Nat), wait_for_response checks fuel i = some n →
      stillPresent (checks n) = false := by
  intro fuel
  induction fuel with
  | zero => intro i n h; simp [wait_for_response] at h
  | succ fuel ih =>
      intro i n h
      rw [wait_for_response] at h
      by_cases hp : stillPresent (checks i) = true
      · rw [hp, if_pos rfl] at h
        exact ih (i + 1) n h
      · have hp' : stillPresent (checks i) = false := by
          cases hh : stillPresent (checks i)
          · rfl
          · exact absurd hh hp
        rw [hp'] at h
        simp at h
        rw [← h]
        exact hp'

/-- C8: the completion detector reaches IDLE within one polling cycle
when the first lookup reports absence or raises (any lookup failure is
treated identically to absence); it stays busy for exactly `N` cycles
when the indicator is present on `N` consecutive checks before the
first absence; and it never breaks while the indicator is still
reported present. -/
theorem c8_completion_detector (checks : Nat → LookupResult) :
    ((checks 0 = LookupResult.notFound ∨ checks 0 = LookupResult.raised) →
      ∀ fuel : Nat, wait_for_response checks (fuel + 1) 0 = some 0)
    ∧ (∀ N : Nat, (∀ i, i < N → checks i = LookupResult.found) →
        stillPresent (checks N) = false →
        ∀ fuel : Nat, N < fuel → wait_for_response checks fuel 0 = some N)
    ∧ (∀ fuel n : Nat, wait_for_response checks fuel 0 = some n →
        stillPresent (checks n) = false) := by
  refine ⟨?_, ?_, ?_⟩
  · intro h fuel
    have habs : stillPresent (checks 0) = false := by
      rcases h with h | h <;> rw [h] <;> rfl
    have := wait_for_response_run checks 0 (fuel + 1) 0
      (fun j hj => absurd hj (Nat.not_lt_zero j)) (by simpa using habs)
      (Nat.succ_pos fuel)
    simpa using this
  · intro N hpres habs fuel hfuel
    have := wait_for_response_run checks N fuel 0
      (fun j hj => by rw [Nat.zero_add, hpres j hj]; rfl)
      (by simpa using habs) hfuel
    simpa using this
  · intro fuel n h
    exact wait_for_response_exit checks fuel 0 n h

/-- Witness for C8: with two busy checks the loop breaks at check 2. -/
theorem c8_completion_detector_witness :
    wait_for_response c8checks 10 0 = some 2 :=
  (c8_completion_detector c8checks).2.1 2
    (fun i hi => by
      have : i < 2 := hi
      simp [c8checks, this])
    (by decide) 10 (by decide)

/-- C9: the normalizer emits exactly one row per record in the mapping's
iteration order (no reorder, no drop), as the pointwise map of
`extract_row`; citations are rendered under `source_0, source_1, …` in
original order and suggestions under the single key `"suggestions"`. -/
theorem c9_normalizer_shape (fmtTime : Int → String)
    (msg_data : List (String × Msg)) :
    (extract_conversation_data fmtTime msg_data).length = msg_data.length
    ∧ (extract_conversation_data fmtTime msg_data).map Row.id
        = msg_data.map Prod.fst
    ∧ extract_conversation_data fmtTime msg_data
        = msg_data.map (fun p => extract_row fmtTime p.1 p.2)
    ∧ (∀ sources : List Json,
        (sourcesDict sources).map Prod.fst
            = (List.range sources.length).map (fun i => "source_" ++ toString i)
        ∧ (sourcesDict sources).map Prod.snd = sources)
    ∧ (∀ suggestions : List Json,
        (suggestionsDict suggestions).map Prod.fst
          = if suggestions.isEmpty then [] else ["suggestions"]) := by
  refine ⟨?_, ?_, rfl, ?_, ?_⟩
  · simp [extract_conversation_data]
  · simp only [extract_conversation_data, List.map_map]
    congr 1
  · intro sources
    by_cases h : sources.isEmpty
    · have h' : sources = [] := List.isEmpty_iff.mp h
      subst h'
      simp [sourcesDict]
    · constructor
      · simp only [sourcesDict, if_neg h, List.map_map]
        have : (Prod.fst ∘ fun p : Nat × Json => ("source_" ++ toString p.1, p.2))
            = (fun i => "source_" ++ toString i) ∘ Prod.fst := rfl
        rw [this, ← List.map_map, List.enum_map_fst]
      · simp only [sourcesDict, if_neg h, List.map_map]
        have : (Prod.snd ∘ fun p : Nat × Json => ("source_" ++ toString p.1, p.2))
            = Prod.snd := rfl
        rw [this, List.enum_map_snd]
  · intro suggestions
    by_cases h : suggestions.isEmpty
    · simp [suggestionsDict, h]
    · simp [suggestionsDict, h]

/-- Closed form of `save_to_csv` (the `let` bindings unfolded). -/
theorem save_to_csv_eq (file : FileState) (convs : List Row) :
    save_to_csv file convs =
      if convs.isEmpty then file
      else if (convs.filter
          (fun conv => !decide (conv.id ∈ get_existing_message_ids file))).isEmpty
        then file
      else some ((file.getD []) ++
        (if file.isSome then [] else [CsvLine.header]) ++
        (convs.filter
          (fun conv => !decide (conv.id ∈ get_existing_message_ids file))).map
            CsvLine.data) := rfl

/-- A well-formed file contains the header line at most once. -/
theorem wf_header_count (file : FileState) (h : WFFile file) :
    (linesOf file).count CsvLine.header ≤ 1 := by
  match file, h with
  | none, _ => simp [linesOf]
  | some lines, h =>
      obtain ⟨rest, hl, hnot⟩ := h
      subst hl
      simp [linesOf, List.count_cons, List.count_eq_zero_of_not_mem hnot]

/-- `CsvLine.data` rows never count as the header line. -/
theorem header_not_mem_data_map (N : List Row) :
    CsvLine.header ∉ N.map CsvLine.data := by
  intro h
  obtain ⟨r, _, hr⟩ := List.mem_map.mp h
  exact CsvLine.noConfusion hr

/-- Reading back the ids of appended data lines. -/
theorem filterMap_lineId_data (M : List Row) :
    (M.map CsvLine.data).filterMap lineId = M.map Row.id := by
  induction M with
  | nil => rfl
  | cons r rs ih => simp [List.filterMap_cons, lineId, ih]

/-- A batch whose surviving remainder is empty performs no file I/O. -/
theorem save_to_csv_noop (file : FileState) (convs : List Row)
    (hfil : convs.filter
        (fun conv => !decide (conv.id ∈ get_existing_message_ids file)) = []) :
    save_to_csv file convs = file := by
  rw [save_to_csv_eq]
  by_cases hc : convs.isEmpty
  · rw [if_pos hc]
  · rw [if_neg hc, hfil]
    simp

/-- `save_to_csv` preserves well-formedness of the file state. -/
theorem save_to_csv_wf (file : FileState) (convs : List Row) (h : WFFile file) :
    WFFile (save_to_csv file convs) := by
  match file, h with
  | none, _ =>
      rw [save_to_csv_eq]
      by_cases hc : convs.isEmpty
      · rw [if_pos hc]; trivial
      · rw [if_neg hc]
        by_cases hNe : (convs.filter
            (fun conv =>
              !decide (conv.id ∈ get_existing_message_ids none))).isEmpty
        · rw [if_pos hNe]; trivial
        · rw [if_neg hNe]
          exact ⟨(convs.filter
              (fun conv =>
                !decide (conv.id ∈ get_existing_message_ids none))).map
                  CsvLine.data,
            by simp, header_not_mem_data_map _⟩
  | some lines, h =>
      obtain ⟨rest, hl, hnot⟩ := h
      subst hl
      rw [save_to_csv_eq]
      by_cases hc : convs.isEmpty
      · rw [if_pos hc]; exact ⟨rest, rfl, hnot⟩
      · rw [if_neg hc]
        by_cases hNe : (convs.filter
            (fun conv => !decide (conv.id ∈
              get_existing_message_ids (some (CsvLine.header :: rest))))).isEmpty
        · rw [if_pos hNe]; exact ⟨rest, rfl, hnot⟩
        · rw [if_neg hNe]
          refine ⟨rest ++ (convs.filter
              (fun conv => !decide (conv.id ∈
                get_existing_message_ids
                  (some (CsvLine.header :: rest))))).map CsvLine.data,
            by simp, ?_⟩
          intro hmem
          rcases List.mem_append.mp hmem with hmem | hmem
          · exact hnot hmem
          · exact header_not_mem_data_map _ hmem

/-- After a real append, every id of the batch is recorded in the file;
otherwise the call was a no-op. -/
theorem save_to_csv_key (file : FileState) (convs : List Row) (h : WFFile file) :
    save_to_csv file convs = file
    ∨ (∀ c ∈ convs,
        c.id ∈ get_existing_message_ids (save_to_csv file convs)) := by
  match file, h with
  | none, _ =>
      by_cases hc : convs.isEmpty
      · left; rw [save_to_csv_eq, if_pos hc]
      · by_cases hNe : (convs.filter
            (fun conv =>
              !decide (conv.id ∈ get_existing_message_ids none))).isEmpty
        · left; rw [save_to_csv_eq, if_neg hc, if_pos hNe]
        · right
          intro c hcc
          have hcN : c ∈ convs.filter
              (fun conv =>
                !decide (conv.id ∈ get_existing_message_ids none)) := by
            refine List.mem_filter.mpr ⟨hcc, ?_⟩
            simp [get_existing_message_ids]
          have hsave : save_to_csv none convs =
              some (CsvLine.header :: (convs.filter
                (fun conv =>
                  !decide (conv.id ∈ get_existing_message_ids none))).map
                    CsvLine.data) := by
            rw [save_to_csv_eq, if_neg hc, if_neg hNe]
            simp
          rw [hsave]
          show c.id ∈ List.filterMap lineId _
          rw [filterMap_lineId_data]
          exact List.mem_map.mpr ⟨c, hcN, rfl⟩
  | some lines, h =>
      obtain ⟨rest, hl, hnot⟩ := h
      subst hl
      by_cases hc : convs.isEmpty
      · left; rw [save_to_csv_eq, if_pos hc]
      · by_cases hNe : (convs.filter
            (fun conv => !decide (conv.id ∈
              get_existing_message_ids (some (CsvLine.header :: rest))))).isEmpty
        · left; rw [save_to_csv_eq, if_neg hc, if_pos hNe]
        · right
          intro c hcc
          have hsave : save_to_csv (some (CsvLine.header :: rest)) convs =
              some (CsvLine.header :: (rest ++ (convs.filter
                (fun conv => !decide (conv.id ∈
                  get_existing_message_ids
                    (some (CsvLine.header :: rest))))).map CsvLine.data)) := by
            rw [save_to_csv_eq, if_neg hc, if_neg hNe]
            simp
          rw [hsave]
          show c.id ∈ List.filterMap lineId (rest ++ _)
          rw [List.filterMap_append, filterMap_lineId_data]
          by_cases hid : c.id ∈
              get_existing_message_ids (some (CsvLine.header :: rest))
          · exact List.mem_append.mpr (Or.inl hid)
          · refine List.mem_append.mpr (Or.inr ?_)
            refine List.mem_map.mpr ⟨c, ?_, rfl⟩
            exact List.mem_filter.mpr ⟨hcc, by simp [hid]⟩

/-- Rows whose id is already recorded are never appended again. -/
theorem save_to_csv_no_dup (file : FileState) (convs : List Row)
    (r : Row)
    (hid : r.id ∈ get_existing_message_ids file) :
    (linesOf (save_to_csv file convs)).count (CsvLine.data r)
      = (linesOf file).count (CsvLine.data r) := by
  rw [save_to_csv_eq]
  by_cases hc : convs.isEmpty
  · rw [if_pos hc]
  · rw [if_neg hc]
    by_cases hNe : (convs.filter
        (fun conv => !decide (conv.id ∈ get_existing_message_ids file))).isEmpty
    · rw [if_pos hNe]
    · rw [if_neg hNe]
      have hnotmem : CsvLine.data r ∉ (convs.filter
          (fun conv =>
            !decide (conv.id ∈ get_existing_message_ids file))).map
              CsvLine.data := by
        intro hmem
        obtain ⟨r', hr', heq⟩ := List.mem_map.mp hmem
        have : r' = r := by
          cases heq
          rfl
        subst this
        have := (List.mem_filter.mp hr').2
        simp at this
        exact this hid
      show (linesOf (some _)).count _ = _
      simp only [linesOf, Option.getD_some]
      rw [List.count_append, List.count_append,
        List.count_eq_zero_of_not_mem hnotmem]
      have hhdr : (if file.isSome then ([] : List CsvLine)
          else [CsvLine.header]).count (CsvLine.data r) = 0 := by
        by_cases hf : file.isSome
        · simp [hf]
        · simp [hf, List.count_singleton]
      rw [hhdr]
      simp [linesOf]

/-- C1: `save_to_csv` is idempotent on well-formed file states: a second
call with the same row set leaves the durable file unchanged; the header
is never duplicated; a batch whose ids are all already recorded performs
no file I/O; and a row whose id is already in the file is never appended
again. -/
theorem c1_append_idempotent (file : FileState) (convs : List Row)
    (h : WFFile file) :
    save_to_csv (save_to_csv file convs) convs = save_to_csv file convs
    ∧ (linesOf (save_to_csv file convs)).count CsvLine.header ≤ 1
    ∧ (convs.filter
        (fun conv => !decide (conv.id ∈ get_existing_message_ids file)) = [] →
        save_to_csv file convs = file)
    ∧ (∀ r : Row, r.id ∈ get_existing_message_ids file →
        (linesOf (save_to_csv file convs)).count (CsvLine.data r)
          = (linesOf file).count (CsvLine.data r)) := by
  refine ⟨?_, ?_, ?_, ?_⟩
  · rcases save_to_csv_key file convs h with heq | hids
    · rw [heq, heq]
    · apply save_to_csv_noop
      rw [List.filter_eq_nil_iff]
      intro c hcc
      simp [hids c hcc]
  · exact wf_header_count _ (save_to_csv_wf file convs h)
  · exact save_to_csv_noop file convs
  · exact fun r => save_to_csv_no_dup file convs r

/-- Witness for C1 at a concrete state: appending the same single-row
batch twice to an initially missing file changes nothing the second
time. -/
theorem c1_append_idempotent_witness :
    save_to_csv (save_to_csv none [c1row]) [c1row] = save_to_csv none [c1row] :=
  (c1_append_idempotent none [c1row] trivial).1

/-- Looking up the freshly inserted key yields the inserted value. -/
theorem dictGet_dictInsert_self (m : PyDict) (k : PyKey) (v : Json) :
    dictGet (dictInsert m k v) k = some v := by
  unfold dictGet dictInsert
  by_cases h : m.any (fun kv => decide (kv.1 = k))
  · rw [if_pos h]
    induction m with
    | nil => simp at h
    | cons kv rest ih =>
        by_cases hk : kv.1 = k
        · simp [List.find?_cons, hk]
        · rw [List.map_cons, if_neg hk, List.find?_cons]
          have hpk : (decide (kv.1 = k)) = false := by simp [hk]
          rw [hpk]
          have hrest : rest.any (fun kv => decide (kv.1 = k)) = true := by
            rcases List.any_eq_true.mp h with ⟨x, hx, hpx⟩
            rcases List.mem_cons.mp hx with rfl | hx'
            · simp [hk] at hpx
            · exact List.any_eq_true.mpr ⟨x, hx', hpx⟩
          exact ih hrest
  · rw [if_neg h, List.find?_append]
    have hnone : m.find? (fun kv => decide (kv.1 = k)) = none := by
      rw [List.find?_eq_none]
      intro x hx hpx
      exact h (List.any_eq_true.mpr ⟨x, hx, hpx⟩)
    rw [hnone]
    simp [List.find?_cons]

/-- Inserting a different key does not change a lookup. -/
theorem dictGet_dictInsert_ne (m : PyDict) (k k' : PyKey) (v : Json)
    (h : k' ≠ k) :
    dictGet (dictInsert m k v) k' = dictGet m k' := by
  unfold dictGet dictInsert
  by_cases ha : m.any (fun kv => decide (kv.1 = k))
  · rw [if_pos ha]
    clear ha
    induction m with
    | nil => rfl
    | cons kv rest ih =>
        rw [List.map_cons, List.find?_cons, List.find?_cons]
        by_cases hk : kv.1 = k
        · rw [if_pos hk]
          have h1 : (decide ((k, v).1 = k')) = false := by
            simp
            exact fun hh => h hh.symm
          have h2 : (decide (kv.1 = k')) = false := by
            simp [hk]
            exact fun hh => h hh.symm
          rw [h1, h2]
          exact ih
        · rw [if_neg hk]
          cases hp : (decide (kv.1 = k')) with
          | true => rfl
          | false => exact ih
  · rw [if_neg ha, List.find?_append]
    have h1 : List.find? (fun kv => decide (kv.1 = k')) [(k, v)] = none := by
      rw [List.find?_eq_none]
      intro x hx
      rcases List.mem_singleton.mp hx with rfl
      simp
      exact fun hh => h hh.symm
    rw [h1, Option.or_none]

/-- Decomposition of `lastVal` at a cons cell. -/
theorem lastVal_cons (kv : PyKey × Json) (rest : List (PyKey × Json))
    (k : PyKey) :
    lastVal (kv :: rest) k =
      ((rest.reverse.find? (fun p => decide (p.1 = k))).or
        (List.find? (fun p => decide (p.1 = k)) [kv])).map (fun p => p.2) := by
  unfold lastVal
  rw [List.reverse_cons, List.find?_append]

/-- A key without a binding in the update list keeps its old lookup. -/
theorem dictGet_update_lastVal_none (kvs : List (PyKey × Json)) :
    ∀ (m : PyDict) (k : PyKey), lastVal kvs k = none →
      dictGet (dictUpdate m kvs) k = dictGet m k := by
  induction kvs with
  | nil => intro m k _; rfl
  | cons kv rest ih =>
      intro m k h
      rw [lastVal_cons] at h
      have hor := Option.map_eq_none.mp h
      have hrest : rest.reverse.find? (fun p => decide (p.1 = k)) = none := by
        cases hr : rest.reverse.find? (fun p => decide (p.1 = k)) with
        | none => rfl
        | some x => rw [hr] at hor; simp [Option.or] at hor
      have hhd : List.find? (fun p => decide (p.1 = k)) [kv] = none := by
        rw [hrest] at hor
        cases hh : List.find? (fun p => decide (p.1 = k)) [kv] with
        | none => rfl
        | some x => rw [hh] at hor; simp [Option.or] at hor
      have hkne : k ≠ kv.1 := by
        intro hk
        rw [List.find?_eq_none] at hhd
        exact absurd (by simp [hk.symm]) (hhd kv (List.mem_singleton.mpr rfl))
      show dictGet (dictUpdate (dictInsert m kv.1 kv.2) rest) k = dictGet m k
      rw [ih (dictInsert m kv.1 kv.2) k (by unfold lastVal; rw [hrest]; rfl),
        dictGet_dictInsert_ne m kv.1 k kv.2 hkne]

/-- Folding an update list into a dict: the last binding of a key wins. -/
theorem dictGet_update_lastVal_some (kvs : List (PyKey × Json)) :
    ∀ (m : PyDict) (k : PyKey) (v : Json), lastVal kvs k = some v →
      dictGet (dictUpdate m kvs) k = some v := by
  induction kvs with
  | nil => intro m k v h; simp [lastVal] at h
  | cons kv rest ih =>
      intro m k v h
      rw [lastVal_cons] at h
      show dictGet (dictUpdate (dictInsert m kv.1 kv.2) rest) k = some v
      cases hr : rest.reverse.find? (fun p => decide (p.1 = k)) with
      | some x =>
          rw [hr] at h
          simp only [Option.or] at h
          exact ih (dictInsert m kv.1 kv.2) k v (by unfold lastVal; rw [hr]; exact h)
      | none =>
          rw [hr] at h
          simp only [Option.or] at h
          have hrest0 : lastVal rest k = none := by unfold lastVal; rw [hr]; rfl
          rw [dictGet_update_lastVal_none rest (dictInsert m kv.1 kv.2) k hrest0]
          rw [List.find?_cons] at h
          cases hp : (decide (kv.1 = k)) with
          | false => rw [hp] at h; simp at h
          | true =>
              rw [hp] at h
              simp only [List.find?_nil, Option.map_some] at h
              have hk : kv.1 = k := of_decide_eq_true hp
              rw [← hk, ← h]
              exact dictGet_dictInsert_self m kv.1 kv.2

/-- The pairs contributed by a parsed `messages` object carry exactly its
last-binding semantics under string keys. -/
theorem lastVal_map_str (M : List (String × Json)) (mid : String) :
    lastVal (M.map (fun kv => (PyKey.str kv.1, kv.2))) (PyKey.str mid)
      = objGet M mid := by
  unfold lastVal objGet
  rw [← List.map_reverse, List.find?_map]
  have hpred : ((fun kv : PyKey × Json => decide (kv.1 = PyKey.str mid)) ∘
      (fun kv : String × Json => (PyKey.str kv.1, kv.2)))
      = (fun kv : String × Json => decide (kv.1 = mid)) := by
    funext kv
    exact decide_eq_decide.mpr (by simp)
  rw [hpred, Option.map_map]
  rfl

/-- Splitting a scan at a list append: the suffix continues from the
prefix's accumulator, and a prefix abort aborts the whole scan. -/
theorem extractGo_append (loads : String → Option Json)
    (xs ys : List (Option String)) :
    ∀ acc : PyDict, extractGo loads (xs ++ ys) acc =
      match extractGo loads xs acc with
      | .ok m => extractGo loads ys m
      | .error err => .error err := by
  induction xs with
  | nil => intro acc; rfl
  | cons e rest ih =>
      intro acc
      rw [List.cons_append, extractGo, extractGo]
      cases hpe : processEntry loads e acc with
      | ok acc' => exact ih acc'
      | error err =>
          cases hsk : skippable err with
          | true =>
              simp only [hsk, if_true]
              exact ih acc
          | false =>
              simp [hsk]

/-- Evaluation of one well-formed qualifying entry: an outbound POST to
a chat URL whose body parses to a `chat.history.messages` mapping `M`
merges `M` into the accumulator. -/
theorem processEntry_qualifying (loads : String → Option Json)
    (e p url : String) (M : List (String × Json)) (acc : PyDict)
    (he : loads e = some (mkOuter url p)) (hp : loads p = some (mkInner M))
    (hurl : strContains url "chat" = true) (hpne : p ≠ "") :
    processEntry loads (some e) acc =
      .ok (dictUpdate acc (M.map (fun kv => (PyKey.str kv.1, kv.2)))) := by
  simp only [processEntry]
  rw [he]
  simp [mkOuter, mkInner, pyGetD, objGet, isStrEq, pyIn, pyIndex,
    pyTruthy, updateArgPairs, hurl, hpne, hp]

/-- C2: over an ordered log stream, when a later qualifying POST
chat-endpoint entry carries a message id (in particular when an earlier
qualifying entry in the prefix carried the same id with different
content), the extractor's final mapping holds the later entry's record —
last-write-wins.  The prefix `xs` is assumed to scan without an aborting
exception (`hgo`), which in particular holds for any prefix of
well-formed entries. -/
theorem c2_last_write_wins (loads : String → Option Json)
    (xs : List (Option String)) (e1 e2 p1 p2 url1 url2 mid : String)
    (M1 M2 : List (String × Json)) (r1 r2 : Json) (m : PyDict)
    (hmem : some e1 ∈ xs)
    (he1 : loads e1 = some (mkOuter url1 p1))
    (hp1 : loads p1 = some (mkInner M1))
    (hurl1 : strContains url1 "chat" = true)
    (hr1 : objGet M1 mid = some r1)
    (hgo : extractGo loads xs [] = .ok m)
    (he2 : loads e2 = some (mkOuter url2 p2))
    (hp2 : loads p2 = some (mkInner M2))
    (hurl2 : strContains url2 "chat" = true)
    (hp2ne : p2 ≠ "")
    (hr2 : objGet M2 mid = some r2)
    (hdiff : r1 ≠ r2) :
    dictGet (get_response_data loads (xs ++ [some e2])) (PyKey.str mid)
      = some r2 := by
  unfold get_response_data
  rw [extractGo_append, hgo]
  show dictGet (match extractGo loads [some e2] m with
      | Except.ok m' => m'
      | Except.error _ => ([] : PyDict)) (PyKey.str mid) = some r2
  rw [show extractGo loads [some e2] m =
      match processEntry loads (some e2) m with
      | Except.ok acc' => Except.ok acc'
      | Except.error err =>
          if skippable err = true then Except.ok m else Except.error err
    from rfl]
  rw [processEntry_qualifying loads e2 p2 url2 M2 m he2 hp2 hurl2 hp2ne]
  show dictGet (dictUpdate m (M2.map (fun kv => (PyKey.str kv.1, kv.2))))
      (PyKey.str mid) = some r2
  apply dictGet_update_lastVal_some
  rw [lastVal_map_str]
  exact hr2

/-- Witness for C2: the merged record for `"m"` is the later `"new"`. -/
theorem c2_last_write_wins_witness :
    dictGet (get_response_data c2loads [some "e1", some "e2"]) (PyKey.str "m")
      = some (Json.str "new") :=
  c2_last_write_wins c2loads [some "e1"] "e1" "e2" "p1" "p2"
    "https://chat.qwen.ai/api/chat" "https://chat.qwen.ai/api/chat" "m"
    [("m", Json.str "old")] [("m", Json.str "new")]
    (Json.str "old") (Json.str "new") [(PyKey.str "m", Json.str "old")]
    (List.mem_singleton.mpr rfl) rfl rfl rfl rfl rfl rfl rfl rfl
    (by decide) rfl (by simp)

/-- C6 counterexample: one entry whose POST body has the wrong type (a
valid-JSON array, so `.get` on it raises `AttributeError`, which the
per-entry handler does not catch) makes the extractor return the empty
mapping, not the five records recovered from the five valid
entries — refuting the claim's "wrong types are skipped and the
remaining well-formed entries are returned". -/
theorem c6_counterexample :
    get_response_data c6loads
        [some "bad", some "v1", some "v2", some "v3", some "v4", some "v5"]
      = []
    ∧ get_response_data c6loads
        [some "v1", some "v2", some "v3", some "v4", some "v5"]
      = [(PyKey.str "m1", Json.str "c1"), (PyKey.str "m2", Json.str "c2"),
         (PyKey.str "m3", Json.str "c3"), (PyKey.str "m4", Json.str "c4"),
         (PyKey.str "m5", Json.str "c5")]
    ∧ ([] : PyDict) ≠
        [(PyKey.str "m1", Json.str "c1"), (PyKey.str "m2", Json.str "c2"),
         (PyKey.str "m3", Json.str "c3"), (PyKey.str "m4", Json.str "c4"),
         (PyKey.str "m5", Json.str "c5")] := by
  refine ⟨rfl, rfl, by simp⟩

/-- C6 amended: an entry whose `message` payload is missing (KeyError)
or fails to parse as JSON (JSONDecodeError) is skipped and does not
abort the scan — the extractor returns exactly what the remaining
entries yield; but an entry whose parsed structure has the wrong type
can raise an exception the per-entry handler does not catch
(AttributeError/ValueError), in which case the whole scan is abandoned
and the empty mapping is returned (still without raising to the
caller). -/
theorem c6_malformed_skip (loads : String → Option Json)
    (l1 l2 : List (Option String)) (bad : Option String)
    (hbad : bad = none ∨ ∃ s, bad = some s ∧ loads s = none) :
    get_response_data loads (l1 ++ bad :: l2)
      = get_response_data loads (l1 ++ l2) := by
  have hpe : ∀ acc : PyDict, ∃ err, processEntry loads bad acc = .error err
      ∧ skippable err = true := by
    intro acc
    rcases hbad with h | ⟨s, hs, hl⟩
    · subst h
      exact ⟨.keyErr, rfl, rfl⟩
    · subst hs
      refine ⟨.jsonDecodeErr, ?_, rfl⟩
      simp only [processEntry]
      rw [hl]
  have hstep : ∀ acc : PyDict,
      extractGo loads (bad :: l2) acc = extractGo loads l2 acc := by
    intro acc
    obtain ⟨err, hpe', hsk⟩ := hpe acc
    rw [extractGo, hpe']
    simp [hsk]
  unfold get_response_data
  rw [extractGo_append, extractGo_append]
  cases hgo : extractGo loads l1 [] with
  | error err => rfl
  | ok m => simp only [hstep m]

/-- Witness for the amended C6: a malformed-JSON entry in the middle of
the stream leaves the result exactly that of the remaining entries. -/
theorem c6_malformed_skip_witness :
    get_response_data c6loads [some "v1", some "zz"]
      = get_response_data c6loads [some "v1"] :=
  c6_malformed_skip c6loads [some "v1"] [] (some "zz")
    (Or.inr ⟨"zz", rfl, rfl⟩)

/-- Unfolding `subRuns` at an empty list. -/
theorem subRuns_nil (p0 : Char → Bool) : subRuns p0 [] = [] := by
  rw [subRuns]

/-- Unfolding `subRuns` at a matching head: the whole run collapses. -/
theorem subRuns_cons_pos (p0 : Char → Bool) (c : Char) (cs : List Char)
    (h : p0 c = true) :
    subRuns p0 (c :: cs) = ' ' :: subRuns p0 (cs.dropWhile p0) := by
  rw [subRuns, if_pos h]

/-- Unfolding `subRuns` at a non-matching head: the character is kept. -/
theorem subRuns_cons_neg (p0 : Char → Bool) (c : Char) (cs : List Char)
    (h : p0 c = false) :
    subRuns p0 (c :: cs) = c :: subRuns p0 cs := by
  rw [subRuns, if_neg (by simp [h])]

/-- Unfolding `wordsOf` at an empty list. -/
theorem wordsOf_nil : wordsOf [] = [] := by
  rw [wordsOf]

/-- Unfolding `wordsOf` at a whitespace head. -/
theorem wordsOf_cons_pos (c : Char) (cs : List Char) (h : pyIsSpace c = true) :
    wordsOf (c :: cs) = wordsOf (cs.dropWhile pyIsSpace) := by
  rw [wordsOf, if_pos h]

/-- Unfolding `wordsOf` at a word head. -/
theorem wordsOf_cons_neg (c : Char) (cs : List Char) (h : pyIsSpace c = false) :
    wordsOf (c :: cs) =
      (c :: cs.takeWhile (fun d => !pyIsSpace d)) ::
        wordsOf (cs.dropWhile (fun d => !pyIsSpace d)) := by
  rw [wordsOf, if_neg (by simp [h])]

/-- Membership survives `dropWhile` backwards. -/
theorem mem_of_mem_dropWhile {p0 : Char → Bool} {c : Char} {l : List Char}
    (h : c ∈ l.dropWhile p0) : c ∈ l := by
  induction l with
  | nil => simpa using h
  | cons d ds ih =>
      rw [List.dropWhile_cons] at h
      split at h
      · exact List.mem_cons.mpr (Or.inr (ih h))
      · exact h

/-- Every character of a `subRuns` output is the replacement space or a
kept non-matching character of the input. -/
theorem mem_subRuns (p0 : Char → Bool) :
    (l : List Char) → ∀ c ∈ subRuns p0 l, c = ' ' ∨ (p0 c = false ∧ c ∈ l)
  | [] => by simp [subRuns_nil]
  | d :: ds => by
      by_cases hd : p0 d = true
      · rw [subRuns_cons_pos _ _ _ hd]
        intro c hc
        rcases List.mem_cons.mp hc with rfl | hc'
        · exact Or.inl rfl
        · rcases mem_subRuns p0 (ds.dropWhile p0) c hc' with h | ⟨h1, h2⟩
          · exact Or.inl h
          · exact Or.inr ⟨h1, List.mem_cons.mpr (Or.inr (mem_of_mem_dropWhile h2))⟩
      · have hd' : p0 d = false := by simpa using hd
        rw [subRuns_cons_neg _ _ _ hd']
        intro c hc
        rcases List.mem_cons.mp hc with rfl | hc'
        · exact Or.inr ⟨hd', List.mem_cons.mpr (Or.inl rfl)⟩
        · rcases mem_subRuns p0 ds c hc' with h | ⟨h1, h2⟩
          · exact Or.inl h
          · exact Or.inr ⟨h1, List.mem_cons.mpr (Or.inr h2)⟩
termination_by l => l.length
decreasing_by
  · simp only [List.length_cons]
    have := dropWhile_length_le p0 ds
    omega
  · simp

/-- Membership survives stripping backwards. -/
theorem mem_of_mem_pyStripL {c : Char} {l : List Char}
    (h : c ∈ pyStripL l) : c ∈ l := by
  unfold pyStripL dropTrailing at h
  rw [List.mem_reverse] at h
  have h2 := mem_of_mem_dropWhile h
  rw [List.mem_reverse] at h2
  exact mem_of_mem_dropWhile h2

/-- `dropWhile` is the identity on a list with no matching character. -/
theorem dropWhile_of_all_false {p0 : Char → Bool} {l : List Char}
    (h : ∀ x ∈ l, p0 x = false) : l.dropWhile p0 = l := by
  cases l with
  | nil => rfl
  | cons c cs =>
      rw [List.dropWhile_cons, if_neg (by simp [h c (List.mem_cons_self c cs)])]

/-- `dropWhile` swallows a fully matching prefix. -/
theorem dropWhile_append_all_true {p0 : Char → Bool} (a b : List Char)
    (h : ∀ x ∈ a, p0 x = true) :
    (a ++ b).dropWhile p0 = b.dropWhile p0 := by
  induction a with
  | nil => rfl
  | cons c cs ih =>
      rw [List.cons_append, List.dropWhile_cons,
        if_pos (h c (List.mem_cons_self c cs))]
      exact ih (fun x hx => h x (List.mem_cons.mpr (Or.inr hx)))

/-- `dropWhile` stays inside a prefix it does not fully swallow. -/
theorem dropWhile_append_left' {p0 : Char → Bool} (a b : List Char)
    (h : a.dropWhile p0 ≠ []) :
    (a ++ b).dropWhile p0 = a.dropWhile p0 ++ b := by
  induction a with
  | nil => simp at h
  | cons c cs ih =>
      simp only [List.cons_append, List.dropWhile_cons] at h ⊢
      by_cases hc : p0 c = true
      · simp only [hc, if_true] at h ⊢
        exact ih h
      · have hc' : p0 c = false := by simpa using hc
        simp only [hc', Bool.false_eq_true, if_false] at h ⊢
        rw [List.cons_append]

/-- Trailing-strip distributes over an append whose right part keeps a
non-matching character. -/
theorem dropTrailing_append_of_exists {p0 : Char → Bool} (X Z : List Char)
    (h : ∃ x ∈ Z, p0 x = false) :
    dropTrailing p0 (X ++ Z) = X ++ dropTrailing p0 Z := by
  unfold dropTrailing
  rw [List.reverse_append]
  have hne : Z.reverse.dropWhile p0 ≠ [] := by
    intro h0
    rw [List.dropWhile_eq_nil_iff] at h0
    obtain ⟨x, hx, hfx⟩ := h
    have := h0 x (List.mem_reverse.mpr hx)
    rw [hfx] at this
    exact absurd this (by simp)
  rw [dropWhile_append_left' _ _ hne, List.reverse_append, List.reverse_reverse]

/-- Stripping trailing whitespace from a word followed by whitespace
leaves the word. -/
theorem dropTrailing_word_spaces {p0 : Char → Bool} (w sp : List Char)
    (hw : ∀ x ∈ w, p0 x = false) (hsp : ∀ x ∈ sp, p0 x = true) :
    dropTrailing p0 (w ++ sp) = w := by
  unfold dropTrailing
  rw [List.reverse_append,
    dropWhile_append_all_true sp.reverse w.reverse
      (fun x hx => hsp x (List.mem_reverse.mp hx)),
    dropWhile_of_all_false (fun x hx => hw x (List.mem_reverse.mp hx)),
    List.reverse_reverse]

/-- `subRuns` copies a prefix of non-matching characters verbatim. -/
theorem subRuns_word (p0 : Char → Bool) (w rest : List Char)
    (h : ∀ x ∈ w, p0 x = false) :
    subRuns p0 (w ++ rest) = w ++ subRuns p0 rest := by
  induction w with
  | nil => rfl
  | cons c cs ih =>
      rw [List.cons_append,
        subRuns_cons_neg _ _ _ (h c (List.mem_cons_self c cs)),
        ih (fun x hx => h x (List.mem_cons.mpr (Or.inr hx))), List.cons_append]

/-- Joining a word list whose tail is non-empty. -/
theorem joinWords_cons_ne (w : List Char) (ws : List (List Char))
    (h : ws ≠ []) : joinWords (w :: ws) = w ++ ' ' :: joinWords ws := by
  cases ws with
  | nil => exact absurd rfl h
  | cons w2 rest => rfl

/-- Dropping a weaker run first does not change a `dropWhile` by a
stronger predicate. -/
theorem dropWhile_dropWhile {q : Char → Bool}
    (hq : ∀ c, q c = true → pyIsSpace c = true) (m : List Char) :
    (m.dropWhile q).dropWhile pyIsSpace = m.dropWhile pyIsSpace := by
  induction m with
  | nil => rfl
  | cons d ds ih =>
      rw [List.dropWhile_cons]
      by_cases hd : q d = true
      · rw [if_pos hd, ih, List.dropWhile_cons, if_pos (hq d hd)]
      · rw [if_neg hd]

/-- The head of a non-empty `dropWhile` result fails the predicate. -/
theorem dropWhile_head_false {p0 : Char → Bool} :
    ∀ {l : List Char} {d : Char} {ds : List Char},
      l.dropWhile p0 = d :: ds → p0 d = false := by
  intro l
  induction l with
  | nil => intro d ds h; simp at h
  | cons c cs ih =>
      intro d ds h
      rw [List.dropWhile_cons] at h
      split at h
      · exact ih h
      · next hc =>
          injection h with h1 _
          subst h1
          simpa using hc

/-- The replacement character is whitespace. -/
theorem pyIsSpace_space : pyIsSpace ' ' = true := by decide

/-- Collapsing a weaker whitespace subclass commutes with dropping
leading whitespace. -/
theorem subRuns_dropWhile_space (q : Char → Bool)
    (hq : ∀ c, q c = true → pyIsSpace c = true) :
    (l : List Char) →
      (subRuns q l).dropWhile pyIsSpace = subRuns q (l.dropWhile pyIsSpace)
  | [] => by simp [subRuns_nil]
  | c :: cs => by
      by_cases hqc : q c = true
      · rw [subRuns_cons_pos q c cs hqc, List.dropWhile_cons, if_pos pyIsSpace_space,
          subRuns_dropWhile_space q hq (cs.dropWhile q),
          dropWhile_dropWhile hq cs, List.dropWhile_cons, if_pos (hq c hqc)]
      · have hqc' : q c = false := by simpa using hqc
        by_cases hpc : pyIsSpace c = true
        · rw [subRuns_cons_neg q c cs hqc', List.dropWhile_cons, if_pos hpc,
            subRuns_dropWhile_space q hq cs, List.dropWhile_cons, if_pos hpc]
        · have hpc' : pyIsSpace c = false := by simpa using hpc
          rw [subRuns_cons_neg q c cs hqc', List.dropWhile_cons,
            if_neg (by simp [hpc']), List.dropWhile_cons,
            if_neg (by simp [hpc']), subRuns_cons_neg q c cs hqc']
termination_by l => l.length
decreasing_by
  all_goals
    simp only [List.length_cons]
    apply Nat.lt_succ_of_le
    first
      | exact dropWhile_length_le _ _
      | exact Nat.le_refl _

/-- Collapsing a weaker whitespace subclass commutes with dropping a
leading word. -/
theorem subRuns_dropWhile_word (q : Char → Bool)
    (hq : ∀ c, q c = true → pyIsSpace c = true) (l : List Char) :
    (subRuns q l).dropWhile (fun d => !pyIsSpace d)
      = subRuns q (l.dropWhile (fun d => !pyIsSpace d)) := by
  induction l with
  | nil => simp [subRuns_nil]
  | cons d ds ih =>
      by_cases hqd : q d = true
      · have hpd := hq d hqd
        rw [subRuns_cons_pos q d ds hqd, List.dropWhile_cons,
          if_neg (by simp [pyIsSpace_space]), List.dropWhile_cons,
          if_neg (by simp [hpd]), subRuns_cons_pos q d ds hqd]
      · have hqd' : q d = false := by simpa using hqd
        by_cases hpd : pyIsSpace d = true
        · rw [subRuns_cons_neg q d ds hqd', List.dropWhile_cons,
            if_neg (by simp [hpd]), List.dropWhile_cons,
            if_neg (by simp [hpd]), subRuns_cons_neg q d ds hqd']
        · have hpd' : pyIsSpace d = false := by simpa using hpd
          rw [subRuns_cons_neg q d ds hqd', List.dropWhile_cons,
            if_pos (by simp [hpd']), List.dropWhile_cons,
            if_pos (by simp [hpd']), ih]

/-- Collapsing a weaker whitespace subclass does not change the leading
word. -/
theorem subRuns_takeWhile_word (q : Char → Bool)
    (hq : ∀ c, q c = true → pyIsSpace c = true) (l : List Char) :
    (subRuns q l).takeWhile (fun d => !pyIsSpace d)
      = l.takeWhile (fun d => !pyIsSpace d) := by
  induction l with
  | nil => simp [subRuns_nil]
  | cons d ds ih =>
      by_cases hqd : q d = true
      · have hpd := hq d hqd
        rw [subRuns_cons_pos q d ds hqd, List.takeWhile_cons,
          List.takeWhile_cons]
        simp [hpd, pyIsSpace_space]
      · have hqd' : q d = false := by simpa using hqd
        by_cases hpd : pyIsSpace d = true
        · rw [subRuns_cons_neg q d ds hqd', List.takeWhile_cons,
            List.takeWhile_cons]
          simp [hpd]
        · have hpd' : pyIsSpace d = false := by simpa using hpd
          rw [subRuns_cons_neg q d ds hqd', List.takeWhile_cons,
            List.takeWhile_cons]
          simp [hpd', ih]

/-- Collapsing runs of a whitespace subclass (such as newline runs)
preserves the word decomposition. -/
theorem wordsOf_subRuns (q : Char → Bool)
    (hq : ∀ c, q c = true → pyIsSpace c = true) :
    (l : List Char) → wordsOf (subRuns q l) = wordsOf l
  | [] => by rw [subRuns_nil]
  | c :: cs => by
      by_cases hqc : q c = true
      · have hpc := hq c hqc
        rw [subRuns_cons_pos q c cs hqc, wordsOf_cons_pos _ _ pyIsSpace_space,
          subRuns_dropWhile_space q hq (cs.dropWhile q),
          dropWhile_dropWhile hq cs,
          wordsOf_subRuns q hq (cs.dropWhile pyIsSpace),
          ← wordsOf_cons_pos c cs hpc]
      · have hqc' : q c = false := by simpa using hqc
        by_cases hpc : pyIsSpace c = true
        · rw [subRuns_cons_neg q c cs hqc', wordsOf_cons_pos _ _ hpc,
            subRuns_dropWhile_space q hq cs,
            wordsOf_subRuns q hq (cs.dropWhile pyIsSpace),
            ← wordsOf_cons_pos c cs hpc]
        · have hpc' : pyIsSpace c = false := by simpa using hpc
          rw [subRuns_cons_neg q c cs hqc', wordsOf_cons_neg _ _ hpc',
            subRuns_takeWhile_word q hq cs, subRuns_dropWhile_word q hq cs,
            wordsOf_subRuns q hq (cs.dropWhile (fun d => !pyIsSpace d)),
            ← wordsOf_cons_neg c cs hpc']
termination_by l => l.length
decreasing_by
  all_goals
    simp only [List.length_cons]
    apply Nat.lt_succ_of_le
    first
      | exact dropWhile_length_le _ _
      | exact Nat.le_refl _

/-- The heart of C10: collapsing every whitespace run to one space and
then stripping produces exactly the words joined by single spaces. -/
theorem strip_subRuns_eq_joinWords :
    (l : List Char) → pyStripL (subRuns pyIsSpace l) = joinWords (wordsOf l)
  | [] => by
      rw [subRuns_nil, wordsOf_nil]
      rfl
  | c :: cs => by
      by_cases hpc : pyIsSpace c = true
      · rw [subRuns_cons_pos _ _ _ hpc, wordsOf_cons_pos _ _ hpc]
        have hL : pyStripL (' ' :: subRuns pyIsSpace (cs.dropWhile pyIsSpace))
            = pyStripL (subRuns pyIsSpace (cs.dropWhile pyIsSpace)) := by
          unfold pyStripL
          rw [List.dropWhile_cons, if_pos pyIsSpace_space]
        rw [hL, strip_subRuns_eq_joinWords (cs.dropWhile pyIsSpace)]
      · have hpc' : pyIsSpace c = false := by simpa using hpc
        have hw : ∀ x ∈ c :: cs.takeWhile (fun d => !pyIsSpace d),
            pyIsSpace x = false := by
          intro x hx
          rcases List.mem_cons.mp hx with rfl | hx'
          · exact hpc'
          · have := List.mem_takeWhile_imp hx'
            simpa using this
        have hsplit :
            subRuns pyIsSpace (c :: cs) =
              (c :: cs.takeWhile (fun d => !pyIsSpace d)) ++
                subRuns pyIsSpace (cs.dropWhile (fun d => !pyIsSpace d)) := by
          have h1 : c :: cs
              = (c :: cs.takeWhile (fun d => !pyIsSpace d)) ++
                  cs.dropWhile (fun d => !pyIsSpace d) := by
            rw [List.cons_append, List.takeWhile_append_dropWhile]
          rw [h1, subRuns_word pyIsSpace _ _ hw]
        have hstrip : ∀ Y : List Char,
            pyStripL ((c :: cs.takeWhile (fun d => !pyIsSpace d)) ++ Y)
              = dropTrailing pyIsSpace
                  ((c :: cs.takeWhile (fun d => !pyIsSpace d)) ++ Y) := by
          intro Y
          unfold pyStripL
          rw [List.cons_append, List.dropWhile_cons, if_neg (by simp [hpc'])]
        rw [hsplit, wordsOf_cons_neg _ _ hpc', hstrip]
        cases hrest : cs.dropWhile (fun d => !pyIsSpace d) with
        | nil =>
            rw [subRuns_nil, List.append_nil, wordsOf_nil]
            have hdt := dropTrailing_word_spaces
              (c :: cs.takeWhile (fun d => !pyIsSpace d)) [] hw (by simp)
            rw [List.append_nil] at hdt
            rw [hdt]
            rfl
        | cons d ds =>
            have hpd : pyIsSpace d = true := by
              have := dropWhile_head_false hrest
              simpa using this
            rw [subRuns_cons_pos _ _ _ hpd, wordsOf_cons_pos _ _ hpd]
            cases hrs : ds.dropWhile pyIsSpace with
            | nil =>
                rw [subRuns_nil, wordsOf_nil]
                rw [dropTrailing_word_spaces _ [' '] hw
                  (by intro x hx; rcases List.mem_singleton.mp hx with rfl; rfl)]
                rfl
            | cons e es =>
                have hpe : pyIsSpace e = false := dropWhile_head_false hrs
                have hrec := strip_subRuns_eq_joinWords (d :: ds)
                rw [subRuns_cons_pos _ _ _ hpd, wordsOf_cons_pos _ _ hpd,
                  hrs] at hrec
                have hrecL : pyStripL
                    (' ' :: subRuns pyIsSpace (e :: es))
                    = dropTrailing pyIsSpace (subRuns pyIsSpace (e :: es)) := by
                  unfold pyStripL
                  rw [List.dropWhile_cons, if_pos pyIsSpace_space,
                    subRuns_cons_neg _ _ _ hpe, List.dropWhile_cons,
                    if_neg (by simp [hpe]), ← subRuns_cons_neg _ _ _ hpe]
                rw [hrecL] at hrec
                -- hrec : dropTrailing p (subRuns p (e :: es)) = joinWords (wordsOf (e :: es))
                have hex : ∃ x ∈ ' ' :: subRuns pyIsSpace (e :: es),
                    pyIsSpace x = false := by
                  refine ⟨e, ?_, hpe⟩
                  rw [subRuns_cons_neg _ _ _ hpe]
                  exact List.mem_cons.mpr (Or.inr (List.mem_cons.mpr (Or.inl rfl)))
                have hsplit2 :
                    (c :: cs.takeWhile (fun d => !pyIsSpace d)) ++
                        ' ' :: subRuns pyIsSpace (e :: es)
                      = ((c :: cs.takeWhile (fun d => !pyIsSpace d)) ++ [' ']) ++
                          subRuns pyIsSpace (e :: es) := by
                  rw [List.append_assoc, List.singleton_append]
                have hex2 : ∃ x ∈ subRuns pyIsSpace (e :: es),
                    pyIsSpace x = false := by
                  refine ⟨e, ?_, hpe⟩
                  rw [subRuns_cons_neg _ _ _ hpe]
                  exact List.mem_cons.mpr (Or.inl rfl)
                rw [hsplit2, dropTrailing_append_of_exists _ _ hex2, hrec]
                have hwordsne : wordsOf (e :: es) ≠ [] := by
                  rw [wordsOf_cons_neg _ _ hpe]
                  exact List.cons_ne_nil _ _
                rw [joinWords_cons_ne _ _ hwordsne, List.append_assoc,
                  List.singleton_append]
termination_by l => l.length
decreasing_by
  · simp only [List.length_cons]
    apply Nat.lt_succ_of_le
    exact dropWhile_length_le _ _
  · rw [← hrest]
    simp only [List.length_cons]
    apply Nat.lt_succ_of_le
    exact dropWhile_length_le _ _

/-- C10: the text typed into the chat input is the whitespace-normalized
query — `clean_query` collapses every newline run and every whitespace
run to one space and strips the ends, so the result is exactly the
query's words joined by single spaces, it contains no newline, and two
queries differing only in whitespace runs (same word decomposition)
submit identical text. -/
theorem c10_clean_query_normalizes (s1 s2 : String)
    (h : wordsOf s1.data = wordsOf s2.data) :
    clean_query s1 = clean_query s2
    ∧ '\n' ∉ (clean_query s1).data
    ∧ (clean_query s1).data = joinWords (wordsOf s1.data) := by
  have hq : ∀ c : Char, (decide (c = '\n')) = true → pyIsSpace c = true := by
    intro c hc
    have hc' : c = '\n' := of_decide_eq_true hc
    subst hc'
    rfl
  have key : ∀ s : String,
      (clean_query s).data = joinWords (wordsOf s.data) := by
    intro s
    show pyStripL (subRuns pyIsSpace
        (subRuns (fun c => decide (c = '\n')) s.data)) = _
    rw [strip_subRuns_eq_joinWords, wordsOf_subRuns _ hq]
  refine ⟨?_, ?_, key s1⟩
  · have h1 := key s1
    have h2 := key s2
    apply String.ext
    rw [h1, h2, h]
  · intro hmem
    have hmem' : '\n' ∈ subRuns pyIsSpace
        (subRuns (fun c => decide (c = '\n')) s1.data) :=
      mem_of_mem_pyStripL hmem
    rcases mem_subRuns pyIsSpace _ '\n' hmem' with h' | ⟨h1', _⟩
    · exact absurd h' (by decide)
    · exact absurd h1' (by decide)

/-- Witness for C10: a query with newline and tab runs and one with
plain space runs send identical normalized text. -/
theorem c10_clean_query_normalizes_witness :
    clean_query "a \n\n\tb" = clean_query " a  b "
    ∧ '\n' ∉ (clean_query "a \n\n\tb").data
    ∧ (clean_query "a \n\n\tb").data = joinWords (wordsOf "a \n\n\tb".data) :=
  c10_clean_query_normalizes "a \n\n\tb" " a  b "
    (by simp [wordsOf, pyIsSpace])
